import Mathlib

/-
Verification of the swif2 status aggregation pipeline (stats/swif2_status.py):
report parsing, numeric normalization, aggregation of totals / problem-type
counts / per-workflow snapshots, and rate derivation.

Strings are modelled as Lean `String` (a wrapper around `List Char`); Python
builtins used by the code (`str.strip`, `str.split`, `int`) are embedded
explicitly below.
-/

namespace Swif2

/-- Characters treated as whitespace by Python `str.strip()` (ASCII range). -/
def pyIsSpace (c : Char) : Bool :=
  c = ' ' || c = '\t' || c = '\n' || c = '\r' || c = '\x0b' || c = '\x0c'

/-- Python `str.strip()` on a character list: drop whitespace from both ends. -/
def stripChars (cs : List Char) : List Char :=
  ((cs.dropWhile pyIsSpace).reverse.dropWhile pyIsSpace).reverse

/-- Python `str.split(sep)` (no maxsplit): split on every occurrence of `sep`,
keeping empty pieces; the empty string yields one empty piece. -/
def splitOnChar (sep : Char) : List Char → List (List Char)
  | [] => [[]]
  | c :: rest =>
    match splitOnChar sep rest with
    | [] => if c = sep then [[], []] else [[c]]
    | piece :: pieces =>
      if c = sep then [] :: piece :: pieces else (c :: piece) :: pieces

/-- Python `str.split(sep, 1)`: split at the first occurrence of `sep`,
returning `none` when `sep` does not occur (so `isSome` is exactly the
`sep in s` test). -/
def splitFirst (sep : Char) : List Char → Option (List Char × List Char)
  | [] => none
  | c :: rest =>
    if c = sep then some ([], rest)
    else (splitFirst sep rest).map (fun p => (c :: p.1, p.2))

/-- Digit-run tail parser for Python `int(str)`: after an initial digit has
been consumed, accept further digits with single underscores allowed only
between digits. The flag records whether the previous character was an
underscore. -/
def parseDigitsSM : List Char → Bool → Nat → Option Nat
  | [], afterU, acc => if afterU then none else some acc
  | c :: rest, afterU, acc =>
    if c.isDigit then parseDigitsSM rest false (10 * acc + (c.toNat - 48))
    else if c = '_' then
      if afterU then none else parseDigitsSM rest true acc
    else none

/-- Unsigned part of Python `int(str)`: a nonempty digit run (with legal
underscore grouping). -/
def parseUnsigned : List Char → Option Nat
  | [] => none
  | c :: rest =>
    if c.isDigit then parseDigitsSM rest false (c.toNat - 48) else none

/-- Python `int(str)` on ASCII input: strip surrounding whitespace, accept an
optional single leading sign and a nonempty digit run; any other content is a
`ValueError`, modelled as `none`. -/
def pyInt (s : String) : Option Int :=
  match stripChars s.data with
  | [] => none
  | c :: rest =>
    if c = '-' then (parseUnsigned rest).map (fun n => -(n : Int))
    else if c = '+' then (parseUnsigned rest).map (fun n => (n : Int))
    else (parseUnsigned (c :: rest)).map (fun n => (n : Int))

/-- Embedding of `parse_numeric_value`: remove commas, then parse with
Python `int`; a parse failure yields `None`. -/
def parse_numeric_value (value : String) : Option Int :=
  pyInt (value.data.filter (fun c => c ≠ ',')).asString

/-- Per-line step of `parse_status_output`: a line containing `=` is split at
the first `=` into a key and a value, both stripped; a line without `=`
contributes nothing. -/
def fieldOfLine (line : List Char) : Option (String × String) :=
  (splitFirst '=' line).map
    (fun p => ((stripChars p.1).asString, (stripChars p.2).asString))

/-- Python dict assignment `d[k] = v` on an association list: overwrite the
value in place if the key is present, otherwise append the binding. -/
def upsert (m : List (String × String)) (k v : String) : List (String × String) :=
  match m with
  | [] => [(k, v)]
  | (k0, v0) :: rest => if k0 = k then (k, v) :: rest else (k0, v0) :: upsert rest k v

/-- Python dict lookup `d[k]` / `k in d` on an association list. -/
def lookupKV (m : List (String × String)) (k : String) : Option String :=
  match m with
  | [] => none
  | (k0, v0) :: rest => if k0 = k then some v0 else lookupKV rest k

/-- Embedding of `parse_status_output`: strip the whole text, split the result
into lines, and fold each `key=value` line into the dict, later duplicate keys
overwriting earlier ones. -/
def parse_status_output (output : String) : List (String × String) :=
  (splitOnChar '\n' (stripChars output.data)).foldl
    (fun m line =>
      match fieldOfLine line with
      | some kv => upsert m kv.1 kv.2
      | none => m)
    []

/-- Embedding of `NUMERIC_FIELDS`: the fields summed across workflows. -/
def NUMERIC_FIELDS : List String :=
  ["jobs", "undispatched", "dispatched", "dispatched_preparing",
   "dispatched_running", "dispatched_pending", "dispatched_other",
   "dispatched_reaping", "succeeded", "abandoned", "problems", "attempts",
   "max_concurrent", "input_mb_processed", "output_mb_generated"]

/-- Embedding of the per-workflow `wf_stats` dict (the `name`, `jobs`,
`succeeded`, `problems` keys). -/
@[ext]
structure WfStats where
  name : String
  jobs : Int
  succeeded : Int
  problems : Int
  deriving Repr, DecidableEq

/-- Aggregate state of `main`: running totals keyed by field name, the
problem-type counts (a `defaultdict(int)`), the number of workflows queried
successfully, and the retained per-workflow stats. -/
structure AggState where
  totals : String → Int
  problem_type_counts : String → Nat
  workflows_queried : Nat
  workflow_stats : List WfStats

/-- Initial aggregate state: all totals zero, no problem types counted, no
workflows queried, no per-workflow stats. -/
def initState : AggState :=
  { totals := fun _ => 0
    problem_type_counts := fun _ => 0
    workflows_queried := 0
    workflow_stats := [] }

/-- One iteration of the `for field in NUMERIC_FIELDS` loop: if the field is
present in the parsed report and numeric, add its value to the totals and, for
the fields that the `wf_stats` dict also tracks, store it in the snapshot. -/
def applyField (data : List (String × String)) (acc : (String → Int) × WfStats)
    (field : String) : (String → Int) × WfStats :=
  match lookupKV data field with
  | none => acc
  | some raw =>
    match parse_numeric_value raw with
    | none => acc
    | some v =>
      (fun f => if f = field then acc.1 f + v else acc.1 f,
       if field = "jobs" then { acc.2 with jobs := v }
       else if field = "succeeded" then { acc.2 with succeeded := v }
       else if field = "problems" then { acc.2 with problems := v }
       else acc.2)

/-- The whole `for field in NUMERIC_FIELDS` loop of `main`. -/
def foldFields (data : List (String × String)) (totals : String → Int)
    (wf : WfStats) : (String → Int) × WfStats :=
  NUMERIC_FIELDS.foldl (applyField data) (totals, wf)

/-- Embedding of the problem-type loop: split the `problem_types` value on
commas, strip each piece, and increment the count of every nonempty piece
(once per occurrence, as the code does). -/
def countProblems (counts : String → Nat) (value : String) : String → Nat :=
  (splitOnChar ',' value.data).foldl
    (fun c part =>
      let p := (stripChars part).asString
      if p = "" then c else fun l => if l = p then c p + 1 else c l)
    counts

/-- One iteration of the workflow loop in `main`, fed with the fetch result
for one workflow (`none` models `get_workflow_status` returning `None`).
`if not output` skips both `None` and the empty string. -/
def stepWorkflow (st : AggState) (name : String) (output : Option String) : AggState :=
  match output with
  | none => st
  | some out =>
    if out = "" then st
    else
      let data := parse_status_output out
      let tw := foldFields data st.totals { name := name, jobs := 0, succeeded := 0, problems := 0 }
      let census :=
        match lookupKV data "problem_types" with
        | none => st.problem_type_counts
        | some v =>
          if v = "" then st.problem_type_counts
          else countProblems st.problem_type_counts v
      { totals := tw.1
        problem_type_counts := census
        workflows_queried := st.workflows_queried + 1
        workflow_stats := st.workflow_stats ++ [tw.2] }

/-- The whole workflow loop of `main`, fed with the list of fetch results
(one optional raw text per workflow name, in query order). -/
def runAggregation (st : AggState) (results : List (String × Option String)) : AggState :=
  results.foldl (fun s r => stepWorkflow s r.1 r.2) st

/-- Overall rate computation of `main`: guarded by `total_jobs > 0`, else the
"No jobs found" outcome, modelled as `none`. Percentages are exact rationals. -/
def overallRates (st : AggState) : Option (Rat × Rat × Rat) :=
  let jobs := st.totals "jobs"
  let succ := st.totals "succeeded"
  let probs := st.totals "problems"
  if 0 < jobs then
    some ((((succ + probs : Int) : Rat) / (jobs : Rat)) * 100,
          ((succ : Rat) / (jobs : Rat)) * 100,
          ((probs : Rat) / (jobs : Rat)) * 100)
  else none

/-- Per-workflow rate computation of `main`: guarded by `jobs > 0`, else the
"N/A" row, modelled as `none`. -/
def workflowRates (wf : WfStats) : Option (Rat × Rat × Rat) :=
  if 0 < wf.jobs then
    some ((((wf.succeeded + wf.problems : Int) : Rat) / (wf.jobs : Rat)) * 100,
          ((wf.succeeded : Rat) / (wf.jobs : Rat)) * 100,
          ((wf.problems : Rat) / (wf.jobs : Rat)) * 100)
  else none

/-- Amount a parsed report adds to the running total of one field: the parsed
value when the field is present and numeric, zero when it is absent or not
numeric. -/
def contributionOf (data : List (String × String)) (f : String) : Int :=
  match lookupKV data f with
  | none => 0
  | some raw => (parse_numeric_value raw).getD 0

/-- Value stored into a snapshot field: the parsed value when present and
numeric, otherwise the prior (default) value. -/
def snapValue (data : List (String × String)) (f : String) (dflt : Int) : Int :=
  match lookupKV data f with
  | none => dflt
  | some raw =>
    match parse_numeric_value raw with
    | none => dflt
    | some v => v

/-- Amount one raw report text adds to the running total of one field. -/
def fieldContribution (s : String) (f : String) : Int :=
  contributionOf (parse_status_output s) f

/-- The key/value fields produced line by line from a report text, in line
order (before dict insertion). -/
def procFields (output : String) : List (String × String) :=
  (splitOnChar '\n' (stripChars output.data)).filterMap fieldOfLine

/-- Insert a list of key/value fields into a dict, in order (later bindings
overwrite earlier ones). -/
def buildKV (ps : List (String × String)) (m : List (String × String)) :
    List (String × String) :=
  ps.foldl (fun m p => upsert m p.1 p.2) m

/-- The value of the last field in the list whose key is `k`, if any: a
left-to-right scan where a later binding overrides an earlier one. -/
def lastBinding (ps : List (String × String)) (k : String) : Option String :=
  ps.foldl (fun acc p => if p.1 = k then some p.2 else acc) none

/-- Base-10 reading of a digit list. -/
def natOfDigits (ds : List Char) : Nat :=
  ds.foldl (fun a c => 10 * a + (c.toNat - 48)) 0

theorem lookupKV_upsert (m : List (String × String)) (k v k' : String) :
    lookupKV (upsert m k v) k' = if k = k' then some v else lookupKV m k' := by
  induction m with
  | nil => simp [upsert, lookupKV]
  | cons p rest ih =>
    obtain ⟨k0, v0⟩ := p
    by_cases h : k0 = k
    · subst h
      by_cases h' : k0 = k' <;> simp [upsert, lookupKV, h']
    · by_cases h' : k0 = k'
      · subst h'
        have hne : ¬k = k0 := fun hh => h hh.symm
        simp [upsert, lookupKV, h, hne]
      · simp [upsert, lookupKV, h, h', ih]

theorem buildKV_cons (p : String × String) (ps m : List (String × String)) :
    buildKV (p :: ps) m = buildKV ps (upsert m p.1 p.2) := rfl

theorem parse_foldl_eq_buildKV (lines : List (List Char)) (m : List (String × String)) :
    lines.foldl
      (fun m line =>
        match fieldOfLine line with
        | some kv => upsert m kv.1 kv.2
        | none => m) m
      = buildKV (lines.filterMap fieldOfLine) m := by
  induction lines generalizing m with
  | nil => rfl
  | cons l ls ih =>
    cases h : fieldOfLine l with
    | none => simpa [List.filterMap_cons, h] using ih m
    | some kv => simpa [List.filterMap_cons, h, buildKV_cons] using ih (upsert m kv.1 kv.2)

theorem parse_status_output_eq_buildKV (output : String) :
    parse_status_output output = buildKV (procFields output) [] :=
  parse_foldl_eq_buildKV _ _

theorem lastBinding_foldl (ps : List (String × String)) (k : String) (acc : Option String) :
    ps.foldl (fun acc p => if p.1 = k then some p.2 else acc) acc
      = (lastBinding ps k).or acc := by
  induction ps generalizing acc with
  | nil => simp [lastBinding]
  | cons p ps ih =>
    have h1 : lastBinding (p :: ps) k
        = (lastBinding ps k).or (if p.1 = k then some p.2 else none) := by
      unfold lastBinding
      rw [List.foldl_cons]
      exact ih _
    rw [List.foldl_cons, ih, h1]
    cases lastBinding ps k <;> by_cases hp : p.1 = k <;> simp [hp]

theorem lookupKV_buildKV (ps m : List (String × String)) (k : String) :
    lookupKV (buildKV ps m) k = (lastBinding ps k).or (lookupKV m k) := by
  induction ps generalizing m with
  | nil => simp [buildKV, lastBinding]
  | cons p ps ih =>
    have h1 : lastBinding (p :: ps) k
        = (lastBinding ps k).or (if p.1 = k then some p.2 else none) := by
      unfold lastBinding
      rw [List.foldl_cons]
      exact lastBinding_foldl ps k _
    rw [buildKV_cons, ih, lookupKV_upsert, h1]
    cases lastBinding ps k with
    | some v => simp
    | none =>
      by_cases hp : p.1 = k
      · simp [hp]
      · have hpk : ¬p.1 = k := hp
        simp [hp, fun hh : k = p.1 => hpk hh.symm]

theorem lastBinding_isSome (ps : List (String × String)) (k : String)
    (h : 0 < ps.countP (fun p => p.1 == k)) : (lastBinding ps k).isSome := by
  induction ps with
  | nil => simp [List.countP_nil] at h
  | cons p ps ih =>
    have h1 : lastBinding (p :: ps) k
        = (lastBinding ps k).or (if p.1 = k then some p.2 else none) := by
      unfold lastBinding
      rw [List.foldl_cons]
      exact lastBinding_foldl ps k _
    rw [h1]
    by_cases hc : 0 < ps.countP (fun p => p.1 == k)
    · cases hh : lastBinding ps k with
      | some v => simp
      | none => exact absurd (ih hc) (by simp [hh])
    · have hp : p.1 = k := by
        rw [List.countP_cons] at h
        by_cases hb : p.1 = k
        · exact hb
        · rw [if_neg (by simp [hb])] at h
          omega
      cases lastBinding ps k <;> simp [hp]

theorem splitFirst_of_not_mem (sep : Char) (l : List Char) (h : sep ∉ l) :
    splitFirst sep l = none := by
  induction l with
  | nil => rfl
  | cons c rest ih =>
    have hc : ¬c = sep := by
      intro hh
      subst hh
      exact h (List.mem_cons_self c rest)
    simp [splitFirst, hc, ih (fun hr => h (List.mem_cons_of_mem c hr))]

theorem splitFirst_append (sep : Char) (a b : List Char) (h : sep ∉ a) :
    splitFirst sep (a ++ sep :: b) = some (a, b) := by
  induction a with
  | nil => simp [splitFirst]
  | cons c rest ih =>
    have hc : ¬c = sep := by
      intro hh
      subst hh
      exact h (List.mem_cons_self c rest)
    simp [splitFirst, hc, ih (fun hr => h (List.mem_cons_of_mem c hr))]

theorem fieldOfLine_eq_some (a b : List Char) (h : '=' ∉ a) :
    fieldOfLine (a ++ '=' :: b)
      = some ((stripChars a).asString, (stripChars b).asString) := by
  simp [fieldOfLine, splitFirst_append _ _ _ h]

theorem fieldOfLine_eq_none (line : List Char) (h : '=' ∉ line) :
    fieldOfLine line = none := by
  simp [fieldOfLine, splitFirst_of_not_mem _ _ h]

theorem splitOnChar_ne_nil (sep : Char) (cs : List Char) : splitOnChar sep cs ≠ [] := by
  cases cs with
  | nil => simp [splitOnChar]
  | cons c rest =>
    cases h : splitOnChar sep rest with
    | nil => by_cases hc : c = sep <;> simp [splitOnChar, h, hc]
    | cons p ps => by_cases hc : c = sep <;> simp [splitOnChar, h, hc]

theorem mem_of_mem_splitOnChar (sep : Char) (cs : List Char) :
    ∀ piece ∈ splitOnChar sep cs, ∀ c ∈ piece, c ∈ cs := by
  induction cs with
  | nil =>
    intro piece hp c hc
    simp [splitOnChar] at hp
    subst hp
    simp at hc
  | cons c0 rest ih =>
    intro piece hp c hc
    cases h : splitOnChar sep rest with
    | nil => exact absurd h (splitOnChar_ne_nil sep rest)
    | cons p ps =>
      rw [splitOnChar, h] at hp
      have hp : piece ∈ (if c0 = sep then [] :: p :: ps else (c0 :: p) :: ps) := hp
      by_cases hc0 : c0 = sep
      · rw [if_pos hc0] at hp
        rcases List.mem_cons.mp hp with h1 | h1
        · subst h1
          simp at hc
        · exact List.mem_cons_of_mem c0 (ih piece (h ▸ h1) c hc)
      · rw [if_neg hc0] at hp
        rcases List.mem_cons.mp hp with h1 | h1
        · subst h1
          rcases List.mem_cons.mp hc with h2 | h2
          · subst h2
            exact List.mem_cons_self _ _
          · exact List.mem_cons_of_mem c0
              (ih p (h ▸ List.mem_cons_self p ps) c h2)
        · exact List.mem_cons_of_mem c0
            (ih piece (h ▸ List.mem_cons_of_mem p h1) c hc)

theorem mem_of_mem_stripChars {c : Char} {cs : List Char} (h : c ∈ stripChars cs) :
    c ∈ cs := by
  unfold stripChars at h
  rw [List.mem_reverse] at h
  have h2 : c ∈ (cs.dropWhile pyIsSpace).reverse := List.dropWhile_subset _ h
  rw [List.mem_reverse] at h2
  exact List.dropWhile_subset _ h2

theorem dropWhile_eq_self_of_none (p : Char → Bool) (l : List Char)
    (h : ∀ c ∈ l, p c = false) : l.dropWhile p = l := by
  cases l with
  | nil => rfl
  | cons x xs => simp [List.dropWhile_cons, h x (List.mem_cons_self x xs)]

theorem stripChars_no_space (cs : List Char) (h : ∀ c ∈ cs, pyIsSpace c = false) :
    stripChars cs = cs := by
  unfold stripChars
  rw [dropWhile_eq_self_of_none _ _ h,
    dropWhile_eq_self_of_none _ _ (fun c hcm => h c (List.mem_reverse.mp hcm)),
    List.reverse_reverse]

theorem mem_dropWhile_of_not (p : Char → Bool) (c : Char) (hc : p c = false) :
    ∀ l : List Char, c ∈ l → c ∈ l.dropWhile p := by
  intro l
  induction l with
  | nil => intro h; exact absurd h (List.not_mem_nil c)
  | cons x xs ih =>
    intro hmem
    by_cases hx : p x
    · have hcx : c ∈ xs := by
        rcases List.mem_cons.mp hmem with h1 | h1
        · subst h1
          rw [hc] at hx
          exact absurd hx (by simp)
        · exact h1
      simpa [List.dropWhile_cons_of_pos hx] using ih hcx
    · simpa [List.dropWhile_cons_of_neg hx] using hmem

theorem mem_stripChars_of_not_space {c : Char} {cs : List Char}
    (hmem : c ∈ cs) (hc : pyIsSpace c = false) : c ∈ stripChars cs := by
  unfold stripChars
  rw [List.mem_reverse]
  exact mem_dropWhile_of_not _ _ hc _
    (List.mem_reverse.mpr (mem_dropWhile_of_not _ _ hc _ hmem))

theorem digit_not_space (c : Char) (h : c.isDigit = true) : pyIsSpace c = false := by
  by_cases h1 : c = ' '
  · subst h1; exact absurd h (by decide)
  · by_cases h2 : c = '\t'
    · subst h2; exact absurd h (by decide)
    · by_cases h3 : c = '\n'
      · subst h3; exact absurd h (by decide)
      · by_cases h4 : c = '\r'
        · subst h4; exact absurd h (by decide)
        · by_cases h5 : c = '\x0b'
          · subst h5; exact absurd h (by decide)
          · by_cases h6 : c = '\x0c'
            · subst h6; exact absurd h (by decide)
            · simp [pyIsSpace, h1, h2, h3, h4, h5, h6]

theorem digit_ne_minus (c : Char) (h : c.isDigit = true) : ¬c = '-' := by
  intro hh
  subst hh
  exact absurd h (by decide)

theorem digit_ne_plus (c : Char) (h : c.isDigit = true) : ¬c = '+' := by
  intro hh
  subst hh
  exact absurd h (by decide)

theorem sign_not_space (c : Char) (h : c = '+' ∨ c = '-') : pyIsSpace c = false := by
  rcases h with h | h <;> subst h <;> decide

theorem parseDigitsSM_bad (c : Char) (hd : c.isDigit = false) (hu : ¬c = '_') :
    ∀ (ds : List Char), c ∈ ds → ∀ (b : Bool) (acc : Nat), parseDigitsSM ds b acc = none := by
  intro ds
  induction ds with
  | nil => intro h; exact absurd h (List.not_mem_nil c)
  | cons x xs ih =>
    intro hmem b acc
    by_cases hx : x.isDigit
    · have hcx : c ∈ xs := by
        rcases List.mem_cons.mp hmem with h1 | h1
        · subst h1
          simp [hd] at hx
        · exact h1
      simp [parseDigitsSM, hx, ih hcx]
    · by_cases hx' : x = '_'
      · have hcx : c ∈ xs := by
          rcases List.mem_cons.mp hmem with h1 | h1
          · subst h1
            exact absurd hx' hu
          · exact h1
        cases b <;> simp [parseDigitsSM, hx, hx', ih hcx]
      · simp [parseDigitsSM, hx, hx']

theorem parseDigitsSM_digits (ds : List Char) (h : ∀ c ∈ ds, c.isDigit = true) :
    ∀ acc, parseDigitsSM ds false acc
      = some (ds.foldl (fun a c => 10 * a + (c.toNat - 48)) acc) := by
  induction ds with
  | nil => intro acc; rfl
  | cons x xs ih =>
    intro acc
    have hx := h x (List.mem_cons_self x xs)
    simp [parseDigitsSM, hx, List.foldl_cons,
      ih (fun c hc => h c (List.mem_cons_of_mem x hc))]

theorem parseUnsigned_digits (d : Char) (ds : List Char)
    (h : ∀ c ∈ d :: ds, c.isDigit = true) :
    parseUnsigned (d :: ds) = some (natOfDigits (d :: ds)) := by
  have hd := h d (List.mem_cons_self d ds)
  simp [parseUnsigned, hd, natOfDigits, List.foldl_cons,
    parseDigitsSM_digits ds (fun c hc => h c (List.mem_cons_of_mem d hc))]

theorem parseUnsigned_bad (c : Char) (hd : c.isDigit = false) (hu : ¬c = '_')
    (ds : List Char) (hmem : c ∈ ds) : parseUnsigned ds = none := by
  cases ds with
  | nil => rfl
  | cons x xs =>
    by_cases hx : x.isDigit
    · have hcx : c ∈ xs := by
        rcases List.mem_cons.mp hmem with h1 | h1
        · subst h1
          simp [hd] at hx
        · exact h1
      simp [parseUnsigned, hx, parseDigitsSM_bad c hd hu xs hcx]
    · simp [parseUnsigned, hx]

theorem pyInt_bad (s : String) (c : Char) (hmem : c ∈ s.data)
    (hd : c.isDigit = false) (hplus : ¬c = '+') (hminus : ¬c = '-')
    (hu : ¬c = '_') (hsp : pyIsSpace c = false) : pyInt s = none := by
  have hmem' : c ∈ stripChars s.data := mem_stripChars_of_not_space hmem hsp
  unfold pyInt
  cases hs : stripChars s.data with
  | nil => rfl
  | cons x xs =>
    rw [hs] at hmem'
    by_cases hx1 : x = '-'
    · have hcx : c ∈ xs := by
        rcases List.mem_cons.mp hmem' with h1 | h1
        · exact absurd (h1.trans hx1) hminus
        · exact h1
      simp [hx1, parseUnsigned_bad c hd hu xs hcx]
    · by_cases hx2 : x = '+'
      · have hcx : c ∈ xs := by
          rcases List.mem_cons.mp hmem' with h1 | h1
          · exact absurd (h1.trans hx2) hplus
          · exact h1
        simp [hx1, hx2, parseUnsigned_bad c hd hu xs hcx]
      · simp [hx1, hx2, parseUnsigned_bad c hd hu (x :: xs) hmem']

theorem parse_numeric_value_bad (s : String) (c : Char) (hmem : c ∈ s.data)
    (hd : c.isDigit = false) (hcomma : ¬c = ',') (hplus : ¬c = '+')
    (hminus : ¬c = '-') (hu : ¬c = '_') (hsp : pyIsSpace c = false) :
    parse_numeric_value s = none := by
  have hmem' : c ∈ (s.data.filter (fun c => c ≠ ',')).asString.data := by
    show c ∈ s.data.filter (fun c => c ≠ ',')
    rw [List.mem_filter]
    exact ⟨hmem, by simp [hcomma]⟩
  exact pyInt_bad _ c hmem' hd hplus hminus hu hsp

theorem digit_ne_comma (c : Char) (h : c.isDigit = true) : ¬c = ',' := by
  intro hh
  subst hh
  exact absurd h (by decide)

theorem parse_numeric_value_pos (s : String) (sgn body : List Char)
    (hs : s.data = sgn ++ body)
    (hsgn : sgn = [] ∨ sgn = ['+'] ∨ sgn = ['-'])
    (hbody : ∀ c ∈ body, c.isDigit = true ∨ c = ',')
    (hdig : ∃ c ∈ body, c.isDigit = true) :
    parse_numeric_value s
      = some (if sgn = ['-']
              then -(natOfDigits (body.filter (fun c => c ≠ ',')) : Int)
              else (natOfDigits (body.filter (fun c => c ≠ ',')) : Int)) := by
  have hds_digit : ∀ c ∈ body.filter (fun c => c ≠ ','), c.isDigit = true := by
    intro c hc
    rw [List.mem_filter] at hc
    rcases hbody c hc.1 with h | h
    · exact h
    · exact absurd h (by simpa using hc.2)
  obtain ⟨c0, hc0b, hc0d⟩ := hdig
  have hc0ds : c0 ∈ body.filter (fun c => c ≠ ',') :=
    List.mem_filter.mpr ⟨hc0b, by simp [digit_ne_comma c0 hc0d]⟩
  cases hd : body.filter (fun c => c ≠ ',') with
  | nil =>
    rw [hd] at hc0ds
    exact absurd hc0ds (List.not_mem_nil c0)
  | cons d rest =>
    rw [hd] at hds_digit
    have hfilter : s.data.filter (fun c => c ≠ ',') = sgn ++ (d :: rest) := by
      rw [hs, List.filter_append, hd]
      congr 1
      rcases hsgn with h | h | h <;> subst h <;> rfl
    have hnospace : ∀ c ∈ sgn ++ (d :: rest), pyIsSpace c = false := by
      intro c hc
      rcases List.mem_append.mp hc with h | h
      · rcases hsgn with hh | hh | hh <;> subst hh
        · exact absurd h (List.not_mem_nil c)
        · have hce : c = '+' := by simpa using h
          subst hce
          decide
        · have hce : c = '-' := by simpa using h
          subst hce
          decide
      · exact digit_not_space c (hds_digit c h)
    have hstrip : stripChars ((s.data.filter (fun c => c ≠ ',')).asString).data
        = sgn ++ (d :: rest) := by
      show stripChars (s.data.filter (fun c => c ≠ ',')) = sgn ++ (d :: rest)
      rw [hfilter]
      exact stripChars_no_space _ hnospace
    have hpu : parseUnsigned (d :: rest) = some (natOfDigits (d :: rest)) :=
      parseUnsigned_digits d rest hds_digit
    show pyInt (s.data.filter (fun c => c ≠ ',')).asString = _
    unfold pyInt
    rw [hstrip]
    rcases hsgn with h | h | h <;> subst h
    · rw [List.nil_append]
      have h1 : ¬d = '-' := digit_ne_minus d (hds_digit d (List.mem_cons_self d rest))
      have h2 : ¬d = '+' := digit_ne_plus d (hds_digit d (List.mem_cons_self d rest))
      simp [h1, h2, hpu, hd]
    · simp [hpu, hd, show ¬('+' : Char) = '-' by decide,
        show ¬(['+'] : List Char) = ['-'] by decide]
    · simp [hpu, hd]

theorem NUMERIC_FIELDS_nodup : NUMERIC_FIELDS.Nodup := by decide

theorem snapValue_zero (data : List (String × String)) (f : String) :
    snapValue data f 0 = contributionOf data f := by
  cases h : lookupKV data f with
  | none => simp [snapValue, contributionOf, h]
  | some raw =>
    cases h2 : parse_numeric_value raw with
    | none => simp [snapValue, contributionOf, h, h2]
    | some v => simp [snapValue, contributionOf, h, h2]

theorem applyField_fst (data : List (String × String)) (acc : (String → Int) × WfStats)
    (g f : String) :
    (applyField data acc g).1 f = acc.1 f + (if f = g then contributionOf data g else 0) := by
  cases h : lookupKV data g with
  | none => simp [applyField, contributionOf, h]
  | some raw =>
    cases h2 : parse_numeric_value raw with
    | none => simp [applyField, contributionOf, h, h2]
    | some v =>
      by_cases hf : f = g <;> simp [applyField, contributionOf, h, h2, hf]

theorem applyField_snd_name (data : List (String × String))
    (acc : (String → Int) × WfStats) (g : String) :
    (applyField data acc g).2.name = acc.2.name := by
  cases h : lookupKV data g with
  | none => simp [applyField, h]
  | some raw =>
    cases h2 : parse_numeric_value raw with
    | none => simp [applyField, h, h2]
    | some v =>
      by_cases hj : g = "jobs"
      · subst hj
        simp [applyField, h, h2]
      · by_cases hsu : g = "succeeded"
        · subst hsu
          simp [applyField, h, h2]
        · by_cases hpr : g = "problems"
          · subst hpr
            simp [applyField, h, h2]
          · simp [applyField, h, h2, hj, hsu, hpr]

theorem applyField_snd_jobs (data : List (String × String))
    (acc : (String → Int) × WfStats) (g : String) :
    (applyField data acc g).2.jobs
      = if g = "jobs" then snapValue data "jobs" acc.2.jobs else acc.2.jobs := by
  by_cases h1 : g = "jobs"
  · subst h1
    cases h : lookupKV data "jobs" with
    | none => simp [applyField, snapValue, h]
    | some raw =>
      cases h2 : parse_numeric_value raw with
      | none => simp [applyField, snapValue, h, h2]
      | some v => simp [applyField, snapValue, h, h2]
  · cases h : lookupKV data g with
    | none => simp [applyField, h, h1]
    | some raw =>
      cases h2 : parse_numeric_value raw with
      | none => simp [applyField, h, h2, h1]
      | some v =>
        by_cases hsu : g = "succeeded"
        · subst hsu
          simp [applyField, h, h2]
        · by_cases hpr : g = "problems"
          · subst hpr
            simp [applyField, h, h2]
          · simp [applyField, h, h2, h1, hsu, hpr]

theorem applyField_snd_succeeded (data : List (String × String))
    (acc : (String → Int) × WfStats) (g : String) :
    (applyField data acc g).2.succeeded
      = if g = "succeeded" then snapValue data "succeeded" acc.2.succeeded
        else acc.2.succeeded := by
  by_cases h1 : g = "succeeded"
  · subst h1
    cases h : lookupKV data "succeeded" with
    | none => simp [applyField, snapValue, h]
    | some raw =>
      cases h2 : parse_numeric_value raw with
      | none => simp [applyField, snapValue, h, h2]
      | some v => simp [applyField, snapValue, h, h2]
  · cases h : lookupKV data g with
    | none => simp [applyField, h, h1]
    | some raw =>
      cases h2 : parse_numeric_value raw with
      | none => simp [applyField, h, h2, h1]
      | some v =>
        by_cases hj : g = "jobs"
        · subst hj
          simp [applyField, h, h2]
        · by_cases hpr : g = "problems"
          · subst hpr
            simp [applyField, h, h2]
          · simp [applyField, h, h2, h1, hj, hpr]

theorem applyField_snd_problems (data : List (String × String))
    (acc : (String → Int) × WfStats) (g : String) :
    (applyField data acc g).2.problems
      = if g = "problems" then snapValue data "problems" acc.2.problems
        else acc.2.problems := by
  by_cases h1 : g = "problems"
  · subst h1
    cases h : lookupKV data "problems" with
    | none => simp [applyField, snapValue, h]
    | some raw =>
      cases h2 : parse_numeric_value raw with
      | none => simp [applyField, snapValue, h, h2]
      | some v => simp [applyField, snapValue, h, h2]
  · cases h : lookupKV data g with
    | none => simp [applyField, h, h1]
    | some raw =>
      cases h2 : parse_numeric_value raw with
      | none => simp [applyField, h, h2, h1]
      | some v =>
        by_cases hj : g = "jobs"
        · subst hj
          simp [applyField, h, h2]
        · by_cases hsu : g = "succeeded"
          · subst hsu
            simp [applyField, h, h2]
          · simp [applyField, h, h2, h1, hj, hsu]

theorem foldl_applyField_fst (data : List (String × String)) :
    ∀ (fields : List String), fields.Nodup →
      ∀ (acc : (String → Int) × WfStats) (f : String),
        (fields.foldl (applyField data) acc).1 f
          = acc.1 f + (if f ∈ fields then contributionOf data f else 0) := by
  intro fields
  induction fields with
  | nil =>
    intro _ acc f
    simp
  | cons g gs ih =>
    intro hnd acc f
    have hnd' := List.nodup_cons.mp hnd
    rw [List.foldl_cons, ih hnd'.2 _ f, applyField_fst]
    by_cases hf : f = g
    · subst hf
      simp [hnd'.1, List.mem_cons]
    · simp [hf, List.mem_cons]

theorem foldl_applyField_snd_name (data : List (String × String)) :
    ∀ (fields : List String) (acc : (String → Int) × WfStats),
      (fields.foldl (applyField data) acc).2.name = acc.2.name := by
  intro fields
  induction fields with
  | nil => intro acc; rfl
  | cons g gs ih =>
    intro acc
    rw [List.foldl_cons, ih, applyField_snd_name]

theorem foldl_applyField_snd_jobs (data : List (String × String)) :
    ∀ (fields : List String), fields.Nodup →
      ∀ (acc : (String → Int) × WfStats),
        (fields.foldl (applyField data) acc).2.jobs
          = if "jobs" ∈ fields then snapValue data "jobs" acc.2.jobs
            else acc.2.jobs := by
  intro fields
  induction fields with
  | nil =>
    intro _ acc
    simp
  | cons g gs ih =>
    intro hnd acc
    have hnd' := List.nodup_cons.mp hnd
    rw [List.foldl_cons, ih hnd'.2, applyField_snd_jobs]
    by_cases hg : g = "jobs"
    · subst hg
      simp [hnd'.1, List.mem_cons]
    · have hg2 : ¬"jobs" = g := fun hh => hg hh.symm
      simp [hg, hg2, List.mem_cons]

theorem foldl_applyField_snd_succeeded (data : List (String × String)) :
    ∀ (fields : List String), fields.Nodup →
      ∀ (acc : (String → Int) × WfStats),
        (fields.foldl (applyField data) acc).2.succeeded
          = if "succeeded" ∈ fields then snapValue data "succeeded" acc.2.succeeded
            else acc.2.succeeded := by
  intro fields
  induction fields with
  | nil =>
    intro _ acc
    simp
  | cons g gs ih =>
    intro hnd acc
    have hnd' := List.nodup_cons.mp hnd
    rw [List.foldl_cons, ih hnd'.2, applyField_snd_succeeded]
    by_cases hg : g = "succeeded"
    · subst hg
      simp [hnd'.1, List.mem_cons]
    · have hg2 : ¬"succeeded" = g := fun hh => hg hh.symm
      simp [hg, hg2, List.mem_cons]

theorem foldl_applyField_snd_problems (data : List (String × String)) :
    ∀ (fields : List String), fields.Nodup →
      ∀ (acc : (String → Int) × WfStats),
        (fields.foldl (applyField data) acc).2.problems
          = if "problems" ∈ fields then snapValue data "problems" acc.2.problems
            else acc.2.problems := by
  intro fields
  induction fields with
  | nil =>
    intro _ acc
    simp
  | cons g gs ih =>
    intro hnd acc
    have hnd' := List.nodup_cons.mp hnd
    rw [List.foldl_cons, ih hnd'.2, applyField_snd_problems]
    by_cases hg : g = "problems"
    · subst hg
      simp [hnd'.1, List.mem_cons]
    · have hg2 : ¬"problems" = g := fun hh => hg hh.symm
      simp [hg, hg2, List.mem_cons]

theorem stepWorkflow_none (st : AggState) (n : String) :
    stepWorkflow st n none = st := rfl

theorem stepWorkflow_empty (st : AggState) (n : String) :
    stepWorkflow st n (some "") = st := by
  simp [stepWorkflow]

theorem runAggregation_cons (st : AggState) (r : String × Option String)
    (results : List (String × Option String)) :
    runAggregation st (r :: results) = runAggregation (stepWorkflow st r.1 r.2) results := rfl

theorem jobs_mem_fields : "jobs" ∈ NUMERIC_FIELDS := by decide

theorem succeeded_mem_fields : "succeeded" ∈ NUMERIC_FIELDS := by decide

theorem problems_mem_fields : "problems" ∈ NUMERIC_FIELDS := by decide

theorem stepWorkflow_some_totals (st : AggState) (n s : String) (hs : ¬s = "")
    (f : String) :
    (stepWorkflow st n (some s)).totals f
      = st.totals f + (if f ∈ NUMERIC_FIELDS then fieldContribution s f else 0) := by
  simp only [stepWorkflow]
  rw [if_neg hs]
  exact foldl_applyField_fst (parse_status_output s) NUMERIC_FIELDS NUMERIC_FIELDS_nodup
    (st.totals, { name := n, jobs := 0, succeeded := 0, problems := 0 }) f

theorem stepWorkflow_some_queried (st : AggState) (n s : String) (hs : ¬s = "") :
    (stepWorkflow st n (some s)).workflows_queried = st.workflows_queried + 1 := by
  simp only [stepWorkflow]
  rw [if_neg hs]

theorem stepWorkflow_some_stats (st : AggState) (n s : String) (hs : ¬s = "") :
    (stepWorkflow st n (some s)).workflow_stats
      = st.workflow_stats ++
        [{ name := n, jobs := fieldContribution s "jobs",
           succeeded := fieldContribution s "succeeded",
           problems := fieldContribution s "problems" }] := by
  simp only [stepWorkflow]
  rw [if_neg hs]
  show st.workflow_stats ++
      [(foldFields (parse_status_output s) st.totals
        { name := n, jobs := 0, succeeded := 0, problems := 0 }).2] = _
  refine congrArg (fun w => st.workflow_stats ++ [w]) ?_
  ext
  · rw [show (foldFields (parse_status_output s) st.totals
        { name := n, jobs := 0, succeeded := 0, problems := 0 }).2
        = (NUMERIC_FIELDS.foldl (applyField (parse_status_output s))
            (st.totals, { name := n, jobs := 0, succeeded := 0, problems := 0 })).2 from rfl,
      foldl_applyField_snd_name]
  · rw [show (foldFields (parse_status_output s) st.totals
        { name := n, jobs := 0, succeeded := 0, problems := 0 }).2
        = (NUMERIC_FIELDS.foldl (applyField (parse_status_output s))
            (st.totals, { name := n, jobs := 0, succeeded := 0, problems := 0 })).2 from rfl,
      foldl_applyField_snd_jobs _ _ NUMERIC_FIELDS_nodup, if_pos jobs_mem_fields]
    exact snapValue_zero _ _
  · rw [show (foldFields (parse_status_output s) st.totals
        { name := n, jobs := 0, succeeded := 0, problems := 0 }).2
        = (NUMERIC_FIELDS.foldl (applyField (parse_status_output s))
            (st.totals, { name := n, jobs := 0, succeeded := 0, problems := 0 })).2 from rfl,
      foldl_applyField_snd_succeeded _ _ NUMERIC_FIELDS_nodup, if_pos succeeded_mem_fields]
    exact snapValue_zero _ _
  · rw [show (foldFields (parse_status_output s) st.totals
        { name := n, jobs := 0, succeeded := 0, problems := 0 }).2
        = (NUMERIC_FIELDS.foldl (applyField (parse_status_output s))
            (st.totals, { name := n, jobs := 0, succeeded := 0, problems := 0 })).2 from rfl,
      foldl_applyField_snd_problems _ _ NUMERIC_FIELDS_nodup, if_pos problems_mem_fields]
    exact snapValue_zero _ _

theorem step_totals_le (st : AggState) (n : String) (out : Option String) (f : String)
    (h : ∀ s, out = some s → ∀ g ∈ NUMERIC_FIELDS, 0 ≤ fieldContribution s g) :
    st.totals f ≤ (stepWorkflow st n out).totals f := by
  cases out with
  | none => exact le_refl _
  | some s =>
    by_cases hs : s = ""
    · subst hs
      rw [stepWorkflow_empty]
    · rw [stepWorkflow_some_totals st n s hs f]
      by_cases hf : f ∈ NUMERIC_FIELDS
      · simpa [hf] using le_add_of_nonneg_right (a := st.totals f) (h s rfl f hf)
      · simp [hf]

theorem run_totals_le (results : List (String × Option String)) :
    ∀ (st : AggState) (f : String),
      (∀ r ∈ results, ∀ s, r.2 = some s → ∀ g ∈ NUMERIC_FIELDS, 0 ≤ fieldContribution s g) →
      st.totals f ≤ (runAggregation st results).totals f := by
  induction results with
  | nil => intro st f _; exact le_refl _
  | cons r rs ih =>
    intro st f h
    rw [runAggregation_cons]
    exact le_trans
      (step_totals_le st r.1 r.2 f (h r (List.mem_cons_self r rs)))
      (ih _ f (fun r' hr' => h r' (List.mem_cons_of_mem r hr')))

theorem run_invariant (results : List (String × Option String)) :
    ∀ st : AggState,
      st.totals "jobs" = (st.workflow_stats.map WfStats.jobs).sum →
      st.totals "succeeded" = (st.workflow_stats.map WfStats.succeeded).sum →
      st.totals "problems" = (st.workflow_stats.map WfStats.problems).sum →
      (runAggregation st results).totals "jobs"
          = ((runAggregation st results).workflow_stats.map WfStats.jobs).sum ∧
        (runAggregation st results).totals "succeeded"
          = ((runAggregation st results).workflow_stats.map WfStats.succeeded).sum ∧
        (runAggregation st results).totals "problems"
          = ((runAggregation st results).workflow_stats.map WfStats.problems).sum := by
  induction results with
  | nil => intro st h1 h2 h3; exact ⟨h1, h2, h3⟩
  | cons r rs ih =>
    intro st h1 h2 h3
    obtain ⟨n, out⟩ := r
    rw [runAggregation_cons]
    cases out with
    | none => exact ih st h1 h2 h3
    | some s =>
      by_cases hs : s = ""
      · subst hs
        rw [stepWorkflow_empty]
        exact ih st h1 h2 h3
      · apply ih
        · rw [stepWorkflow_some_totals _ _ _ hs, stepWorkflow_some_stats _ _ _ hs]
          simp [h1, jobs_mem_fields]
        · rw [stepWorkflow_some_totals _ _ _ hs, stepWorkflow_some_stats _ _ _ hs]
          simp [h2, succeeded_mem_fields]
        · rw [stepWorkflow_some_totals _ _ _ hs, stepWorkflow_some_stats _ _ _ hs]
          simp [h3, problems_mem_fields]

theorem parse_no_eq (output : String) (h : '=' ∉ output.data) :
    parse_status_output output = [] := by
  rw [parse_status_output_eq_buildKV]
  have hfields : procFields output = [] := by
    unfold procFields
    rw [List.filterMap_eq_nil_iff]
    intro line hline
    apply fieldOfLine_eq_none
    intro hmem
    exact h (mem_of_mem_stripChars
      (mem_of_mem_splitOnChar '\n' (stripChars output.data) line hline '=' hmem))
  rw [hfields]
  rfl

theorem fieldContribution_jobs10 : fieldContribution "jobs=10" "jobs" = 10 := by decide

theorem run_replicate_jobs10 (K : Nat) : ∀ st : AggState,
    (runAggregation st (List.replicate K ("w", some "jobs=10"))).totals "jobs"
      = st.totals "jobs" + 10 * (K : Int) := by
  induction K with
  | zero =>
    intro st
    simp [runAggregation]
  | succ k ih =>
    intro st
    rw [List.replicate_succ, runAggregation_cons]
    rw [ih (stepWorkflow st ("w", some "jobs=10").1 ("w", some "jobs=10").2)]
    rw [show stepWorkflow st ("w", some "jobs=10").1 ("w", some "jobs=10").2
        = stepWorkflow st "w" (some "jobs=10") from rfl]
    rw [stepWorkflow_some_totals st "w" "jobs=10" (by decide) "jobs",
      if_pos jobs_mem_fields, fieldContribution_jobs10]
    push_cast
    ring

/-- Claim C3: a workflow whose fetch returned the unavailable signal (`none`) leaves
the totals, the problem-type census, the queried count and the snapshot list
unchanged, appends no snapshot, and aggregation of the remaining workflows
continues rather than aborting. -/
theorem fetch_failure_skips_workflow (st : AggState) (n : String)
    (rest : List (String × Option String)) :
    stepWorkflow st n none = st ∧
    (stepWorkflow st n none).totals = st.totals ∧
    (stepWorkflow st n none).problem_type_counts = st.problem_type_counts ∧
    (stepWorkflow st n none).workflows_queried = st.workflows_queried ∧
    (stepWorkflow st n none).workflow_stats = st.workflow_stats ∧
    runAggregation st ((n, none) :: rest) = runAggregation st rest :=
  ⟨rfl, rfl, rfl, rfl, rfl, rfl⟩

/-- Claim C10: a fetch that succeeds with the empty string is treated exactly like a
failed fetch: the workflow is skipped, not counted as queried, produces no
snapshot and contributes nothing; aggregation continues with the rest. -/
theorem empty_report_like_failure (st : AggState) (n : String)
    (rest : List (String × Option String)) :
    stepWorkflow st n (some "") = st ∧
    stepWorkflow st n (some "") = stepWorkflow st n none ∧
    (stepWorkflow st n (some "")).workflows_queried = st.workflows_queried ∧
    (stepWorkflow st n (some "")).workflow_stats = st.workflow_stats ∧
    (stepWorkflow st n (some "")).totals = st.totals ∧
    (stepWorkflow st n (some "")).problem_type_counts = st.problem_type_counts ∧
    runAggregation st ((n, some "") :: rest) = runAggregation st rest := by
  have h : stepWorkflow st n (some "") = st := stepWorkflow_empty st n
  refine ⟨h, h, by rw [h], by rw [h], by rw [h], by rw [h], ?_⟩
  show runAggregation (stepWorkflow st n (some "")) rest = runAggregation st rest
  rw [h]

/-- Claim C1: the claim says a report with `problem_types = "timeout, timeout,
disk_full"` contributes exactly 1 to the census count of each distinct label;
the code instead increments once per occurrence, so `timeout` is counted
twice from one workflow, contradicting the summary header "count of workflows
with each type". -/
theorem problem_census_counts_occurrences :
    (stepWorkflow initState "wf"
        (some "problem_types=timeout, timeout, disk_full")).problem_type_counts "timeout" = 2 ∧
    (stepWorkflow initState "wf"
        (some "problem_types=timeout, timeout, disk_full")).problem_type_counts "disk_full" = 1 ∧
    ¬(stepWorkflow initState "wf"
        (some "problem_types=timeout, timeout, disk_full")).problem_type_counts "timeout" = 1 := by
  have h1 : (stepWorkflow initState "wf"
      (some "problem_types=timeout, timeout, disk_full")).problem_type_counts "timeout" = 2 := by
    decide
  refine ⟨h1, by decide, ?_⟩
  rw [h1]
  decide

/-- Claim C2: the rate calculator yields completion% = (succeeded + problems) /
jobs × 100, success% = succeeded / jobs × 100 and failure% = problems /
jobs × 100 whenever jobs > 0, for the aggregate totals and for each
per-workflow snapshot alike; jobs = 0 yields the distinct "no data" outcome
(`none`), never 0% and never a division; jobs=100, succeeded=80, problems=10
gives 90%, 80%, 10%. -/
theorem rate_calculator_correct :
    (∀ st : AggState, 0 < st.totals "jobs" →
      overallRates st = some
        ((((st.totals "succeeded" + st.totals "problems" : Int) : Rat)
            / ((st.totals "jobs" : Int) : Rat)) * 100,
         (((st.totals "succeeded" : Int) : Rat) / ((st.totals "jobs" : Int) : Rat)) * 100,
         (((st.totals "problems" : Int) : Rat) / ((st.totals "jobs" : Int) : Rat)) * 100)) ∧
    (∀ st : AggState, st.totals "jobs" = 0 → overallRates st = none) ∧
    (∀ wf : WfStats, 0 < wf.jobs →
      workflowRates wf = some
        ((((wf.succeeded + wf.problems : Int) : Rat) / ((wf.jobs : Int) : Rat)) * 100,
         (((wf.succeeded : Int) : Rat) / ((wf.jobs : Int) : Rat)) * 100,
         (((wf.problems : Int) : Rat) / ((wf.jobs : Int) : Rat)) * 100)) ∧
    (∀ wf : WfStats, wf.jobs = 0 → workflowRates wf = none) ∧
    workflowRates { name := "w", jobs := 100, succeeded := 80, problems := 10 }
      = some (90, 80, 10) ∧
    overallRates (stepWorkflow initState "w" (some "jobs=100\nsucceeded=80\nproblems=10"))
      = some (90, 80, 10) := by
  refine ⟨?_, ?_, ?_, ?_, ?_, ?_⟩
  · intro st h
    simp [overallRates, h]
  · intro st h
    simp [overallRates, h]
  · intro wf h
    simp [workflowRates, h]
  · intro wf h
    simp [workflowRates, h]
  · norm_num [workflowRates]
  · have hj : (stepWorkflow initState "w"
        (some "jobs=100\nsucceeded=80\nproblems=10")).totals "jobs" = 100 := by decide
    have hsu : (stepWorkflow initState "w"
        (some "jobs=100\nsucceeded=80\nproblems=10")).totals "succeeded" = 80 := by decide
    have hpr : (stepWorkflow initState "w"
        (some "jobs=100\nsucceeded=80\nproblems=10")).totals "problems" = 10 := by decide
    simp only [overallRates, hj, hsu, hpr]
    norm_num

/-- Witness for C2 at jobs=4, succeeded=1, problems=2. -/
theorem rate_calculator_correct_witness :
    workflowRates { name := "v", jobs := 4, succeeded := 1, problems := 2 }
      = some (((((1 : Int) + 2 : Int) : Rat) / (((4 : Int)) : Rat)) * 100,
              (((1 : Int) : Rat) / (((4 : Int)) : Rat)) * 100,
              (((2 : Int) : Rat) / (((4 : Int)) : Rat)) * 100) :=
  rate_calculator_correct.2.2.1
    { name := "v", jobs := 4, succeeded := 1, problems := 2 } (by decide)

/-- Claim C5 counterexample: folding a report whose `jobs` value is negative
strictly decreases the running total, so the totals are not monotonically
non-decreasing over every sequence of reports as the claim states. -/
theorem totals_can_decrease :
    (stepWorkflow initState "w" (some "jobs=-5")).totals "jobs" = -5 ∧
    ¬(initState.totals "jobs" ≤ (stepWorkflow initState "w" (some "jobs=-5")).totals "jobs") := by
  have h : (stepWorkflow initState "w" (some "jobs=-5")).totals "jobs" = -5 := by decide
  refine ⟨h, ?_⟩
  rw [h]
  decide

/-- Claim C5 (amended): every aggregate total is initialized to zero, and folding
one more report never decreases any total provided each tracked field of the
report is absent, non-numeric, or parses to a non-negative value; likewise
along any whole fold. (The code adds parsed values as-is, so a
negative-valued field decreases its total.) -/
theorem totals_init_zero_and_monotone :
    (∀ f : String, initState.totals f = 0) ∧
    (∀ (st : AggState) (n : String) (out : Option String) (f : String),
      (∀ s, out = some s → ∀ g ∈ NUMERIC_FIELDS, 0 ≤ fieldContribution s g) →
      st.totals f ≤ (stepWorkflow st n out).totals f) ∧
    (∀ (st : AggState) (results : List (String × Option String)) (f : String),
      (∀ r ∈ results, ∀ s, r.2 = some s → ∀ g ∈ NUMERIC_FIELDS, 0 ≤ fieldContribution s g) →
      st.totals f ≤ (runAggregation st results).totals f) :=
  ⟨fun _ => rfl,
   fun st n out f h => step_totals_le st n out f h,
   fun st results f h => run_totals_le results st f h⟩

/-- Witness for the amended C5 at the report `jobs=10`. -/
theorem totals_init_zero_and_monotone_witness :
    initState.totals "jobs" ≤ (stepWorkflow initState "w" (some "jobs=10")).totals "jobs" :=
  totals_init_zero_and_monotone.2.1 initState "w" (some "jobs=10") "jobs"
    (by intro s hs; cases hs; decide)

/-- Claim C6: folding K copies of a report `jobs=10` yields AggregateTotals[jobs]
= 10·K; in general a tracked field that is present and numeric adds exactly
its parsed value to its running total, and an absent or non-numeric field
leaves that total unchanged. -/
theorem aggregate_sums_fields :
    (∀ K : Nat,
      (runAggregation initState (List.replicate K ("w", some "jobs=10"))).totals "jobs"
        = 10 * (K : Int)) ∧
    (∀ (data : List (String × String)) (totals : String → Int) (wf : WfStats)
        (f : String), f ∈ NUMERIC_FIELDS →
      (∀ raw v, lookupKV data f = some raw → parse_numeric_value raw = some v →
        (foldFields data totals wf).1 f = totals f + v) ∧
      (lookupKV data f = none → (foldFields data totals wf).1 f = totals f) ∧
      (∀ raw, lookupKV data f = some raw → parse_numeric_value raw = none →
        (foldFields data totals wf).1 f = totals f)) := by
  constructor
  · intro K
    have h := run_replicate_jobs10 K initState
    simpa [initState] using h
  · intro data totals wf f hf
    have hbase : (foldFields data totals wf).1 f
        = (totals, wf).1 f + (if f ∈ NUMERIC_FIELDS then contributionOf data f else 0) :=
      foldl_applyField_fst data NUMERIC_FIELDS NUMERIC_FIELDS_nodup (totals, wf) f
    refine ⟨?_, ?_, ?_⟩
    · intro raw v h1 h2
      rw [hbase, if_pos hf]
      simp [contributionOf, h1, h2]
    · intro h1
      rw [hbase, if_pos hf]
      simp [contributionOf, h1]
    · intro raw h1 h2
      rw [hbase, if_pos hf]
      simp [contributionOf, h1, h2]

/-- Witness for C6: one report with `jobs` mapped to `"10"` adds 10. -/
theorem aggregate_sums_fields_witness :
    (foldFields [("jobs", "10")] (fun _ => (0 : Int))
      { name := "w", jobs := 0, succeeded := 0, problems := 0 }).1 "jobs" = 10 := by
  have h := (aggregate_sums_fields.2 [("jobs", "10")] (fun _ => (0 : Int))
      { name := "w", jobs := 0, succeeded := 0, problems := 0 } "jobs"
      jobs_mem_fields).1 "10" 10 (by decide) (by decide)
  simpa using h

/-- Claim C9: after folding any sequence of fetch results from the initial state,
each of the totals for jobs, succeeded and problems equals the sum of that
field over the retained snapshots; each folded report stores in its snapshot
exactly the amount it adds to each of these totals (zero when the field is
absent or non-numeric). -/
theorem totals_eq_snapshot_sums :
    (∀ results : List (String × Option String),
      (runAggregation initState results).totals "jobs"
        = ((runAggregation initState results).workflow_stats.map WfStats.jobs).sum ∧
      (runAggregation initState results).totals "succeeded"
        = ((runAggregation initState results).workflow_stats.map WfStats.succeeded).sum ∧
      (runAggregation initState results).totals "problems"
        = ((runAggregation initState results).workflow_stats.map WfStats.problems).sum) ∧
    (∀ (st : AggState) (n s : String), ¬s = "" →
      (stepWorkflow st n (some s)).workflow_stats
        = st.workflow_stats ++
          [{ name := n, jobs := fieldContribution s "jobs",
             succeeded := fieldContribution s "succeeded",
             problems := fieldContribution s "problems" }] ∧
      (stepWorkflow st n (some s)).totals "jobs"
        = st.totals "jobs" + fieldContribution s "jobs" ∧
      (stepWorkflow st n (some s)).totals "succeeded"
        = st.totals "succeeded" + fieldContribution s "succeeded" ∧
      (stepWorkflow st n (some s)).totals "problems"
        = st.totals "problems" + fieldContribution s "problems") := by
  constructor
  · intro results
    exact run_invariant results initState rfl rfl rfl
  · intro st n s hs
    refine ⟨stepWorkflow_some_stats st n s hs, ?_, ?_, ?_⟩
    · rw [stepWorkflow_some_totals st n s hs, if_pos jobs_mem_fields]
    · rw [stepWorkflow_some_totals st n s hs, if_pos succeeded_mem_fields]
    · rw [stepWorkflow_some_totals st n s hs, if_pos problems_mem_fields]

/-- Witness for C9 at the report `jobs=3`. -/
theorem totals_eq_snapshot_sums_witness :
    (stepWorkflow initState "w" (some "jobs=3")).totals "jobs"
      = initState.totals "jobs" + fieldContribution "jobs=3" "jobs" :=
  (totals_eq_snapshot_sums.2 initState "w" "jobs=3" (by decide)).2.1

/-- Claim C7: a line that decomposes as `a ++ '=' :: b` with no `=` in `a` is
parsed to the field whose name is `a` trimmed and whose value is `b` trimmed
(so embedded `=` in the value is preserved); a line without `=` yields no
field; the parser is exactly the in-order insertion of the per-line fields;
empty input, and any input with no `=` anywhere, yield the empty mapping. -/
theorem report_parser_correct :
    (∀ (line a b : List Char), line = a ++ '=' :: b → '=' ∉ a →
      fieldOfLine line = some ((stripChars a).asString, (stripChars b).asString)) ∧
    (∀ line : List Char, '=' ∉ line → fieldOfLine line = none) ∧
    (∀ output : String, parse_status_output output = buildKV (procFields output) []) ∧
    parse_status_output "" = [] ∧
    (∀ output : String, '=' ∉ output.data → parse_status_output output = []) := by
  refine ⟨?_, ?_, ?_, ?_, ?_⟩
  · intro line a b hline ha
    subst hline
    exact fieldOfLine_eq_some a b ha
  · exact fun line h => fieldOfLine_eq_none line h
  · exact parse_status_output_eq_buildKV
  · rfl
  · exact fun output h => parse_no_eq output h

/-- Witness for C7: a line with spaces and `=`, a line without `=`, and an
input with no `=` at all. -/
theorem report_parser_correct_witness :
    fieldOfLine ("a = 1".data) = some ("a", "1") ∧
    fieldOfLine ("noequals".data) = none ∧
    parse_status_output "no equals here" = [] := by
  refine ⟨?_, ?_, ?_⟩
  · have h := report_parser_correct.1 ("a = 1".data) ("a ".data) (" 1".data)
      (by decide) (by decide)
    exact h.trans (by decide)
  · exact report_parser_correct.2.1 ("noequals".data) (by decide)
  · exact report_parser_correct.2.2.2.2 "no equals here" (by decide)

/-- Claim C8: when the same trimmed key occurs on at least two `key=value` lines of
one report, the parsed mapping carries, for that key, the value of the last
such line (`lastBinding` scans the fields in line order, later occurrences
overriding earlier ones), and that value exists. -/
theorem duplicate_keys_last_wins (output : String) (k : String)
    (h : 2 ≤ (procFields output).countP (fun p => p.1 == k)) :
    lookupKV (parse_status_output output) k = lastBinding (procFields output) k ∧
    (lastBinding (procFields output) k).isSome := by
  constructor
  · rw [parse_status_output_eq_buildKV, lookupKV_buildKV]
    cases lastBinding (procFields output) k <;> simp [lookupKV]
  · exact lastBinding_isSome _ _ (by omega)

/-- Witness for C8: key `a` bound twice, the second value wins. -/
theorem duplicate_keys_last_wins_witness :
    lookupKV (parse_status_output "a=1\na=2") "a" = some "2" := by
  have h := duplicate_keys_last_wins "a=1\na=2" "a" (by decide)
  exact h.1.trans (by decide)

/-- Claim C4 counterexample: `"1_2"` contains `'_'`, a non-digit non-separator
character, yet the normalizer returns 12 (Python `int` accepts underscore
digit grouping) instead of signalling not-numeric as the claim requires. -/
theorem numeric_normalizer_underscore :
    parse_numeric_value "1_2" = some 12 ∧ ¬parse_numeric_value "1_2" = none := by
  have h : parse_numeric_value "1_2" = some 12 := by decide
  exact ⟨h, by rw [h]; exact fun hh => Option.noConfusion hh⟩

/-- Claim C4 (amended): a value made of an optional sign followed by digits
interspersed with comma separators parses to the integer read off after
removing the commas; a value containing any character that is not a digit,
comma, sign, underscore or whitespace signals not-numeric, as does the empty
string. (Python `int` additionally accepts underscore grouping and
surrounding whitespace, so those characters are excluded from the
not-numeric case.) -/
theorem numeric_normalizer_correct :
    (∀ (s : String) (sgn body : List Char),
      s.data = sgn ++ body →
      (sgn = [] ∨ sgn = ['+'] ∨ sgn = ['-']) →
      (∀ c ∈ body, c.isDigit = true ∨ c = ',') →
      (∃ c ∈ body, c.isDigit = true) →
      parse_numeric_value s
        = some (if sgn = ['-']
                then -(natOfDigits (body.filter (fun c => c ≠ ',')) : Int)
                else (natOfDigits (body.filter (fun c => c ≠ ',')) : Int))) ∧
    (∀ (s : String) (c : Char), c ∈ s.data → c.isDigit = false → ¬c = ',' →
      ¬c = '+' → ¬c = '-' → ¬c = '_' → pyIsSpace c = false →
      parse_numeric_value s = none) ∧
    parse_numeric_value "" = none :=
  ⟨parse_numeric_value_pos, parse_numeric_value_bad, rfl⟩

/-- Witness for the amended C4: `"12,345"` parses to 12345 and `"N/A"` is
not numeric. -/
theorem numeric_normalizer_correct_witness :
    parse_numeric_value "12,345" = some 12345 ∧ parse_numeric_value "N/A" = none := by
  constructor
  · have h := numeric_normalizer_correct.1 "12,345" [] ("12,345".data) rfl
      (Or.inl rfl) (by decide) (by decide)
    exact h.trans (by decide)
  · exact numeric_normalizer_correct.2.1 "N/A" '/' (by decide) (by decide)
      (by decide) (by decide) (by decide) (by decide) (by decide)

end Swif2
